import Mathlib

/-!
Verification of the knowledge-node store in `src/lib/actions.ts` of the
personal-knowledge-graph repository.  The file embeds the tokenizer, the
JSON string-array codec used for the `keywords` hash field, the node
(de)serialization, the Redis-pipeline-based create/update/delete actions and
the read paths (`getAllNodes`, `searchNodes`), and proves or refutes the
specification's claims about them.
-/

namespace PKG

/-! ## Character-level helpers -/

/-- The ASCII whitespace characters matched by the JavaScript regex class
`\s` (the additional Unicode space code points never occur in this
repository's data). -/
def jsWhitespace (c : Char) : Bool :=
  c = ' ' || c = '\t' || c = '\n' || c = '\r' || c = '\x0b' || c = '\x0c'

/-- ASCII lower-casing of one character, the fragment of
`String.prototype.toLowerCase` exercised by this repository. -/
def asciiToLowerChar (c : Char) : Char :=
  if 'A' ≤ c && c ≤ 'Z' then Char.ofNat (c.toNat + 32) else c

/-- `text.toLowerCase()` (ASCII fragment). -/
def asciiToLower (s : String) : String :=
  String.mk (s.data.map asciiToLowerChar)

/-- One pass of `String.prototype.split(/\s+/)`: `acc` holds the characters
of the current token in reverse, `prevWs` records whether the previous
character was whitespace, so that a run of whitespace characters produces a
single split point. -/
def splitWsAux : List Char → List Char → Bool → List (List Char)
  | [], acc, _ => [acc.reverse]
  | c :: rest, acc, prevWs =>
    if jsWhitespace c then
      if prevWs then splitWsAux rest acc true
      else acc.reverse :: splitWsAux rest [] true
    else splitWsAux rest (c :: acc) false

/-- `str.split(/\s+/)`: like the JavaScript call, a leading or trailing
whitespace run contributes an empty token at the corresponding end, and the
empty string yields `[""]`. -/
def splitWs (l : List Char) : List (List Char) :=
  splitWsAux l [] false

/-- The regex test `/^\d+$/.test(word)`: nonempty and all decimal digits. -/
def isNumericTok (t : List Char) : Bool :=
  !t.isEmpty && t.all (fun c => c.isDigit)

/-- The four punctuation characters of the regex class `[.,!?]`. -/
def isPunctChar (c : Char) : Bool :=
  c = '.' || c = ',' || c = '!' || c = '?'

/-- `word.replace(/[.,!?]/g, '')`: a global replace, deleting the four
punctuation characters wherever they occur in the token. -/
def stripPunct (t : List Char) : List Char :=
  t.filter (fun c => !isPunctChar c)

/-- `[...new Set(xs)]`: JavaScript `Set` iteration is insertion order, so
spreading a `Set` keeps the first occurrence of each element. -/
def dedupFirstAux [DecidableEq α] (seen : List α) : List α → List α
  | [] => []
  | x :: xs =>
    if x ∈ seen then dedupFirstAux seen xs
    else x :: dedupFirstAux (x :: seen) xs

/-- First-occurrence deduplication, the effect of `[...new Set(xs)]`. -/
def dedupFirst [DecidableEq α] (l : List α) : List α :=
  dedupFirstAux [] l

/-- `String.prototype.trim` (ASCII whitespace fragment). -/
def jsTrim (s : String) : String :=
  String.mk (((s.data.dropWhile jsWhitespace).reverse.dropWhile jsWhitespace).reverse)

/-! ## The tokenizer (`extractKeywords`) and the search-term derivation -/

/-- `extractKeywords` from `src/lib/actions.ts`: lower-case the content,
split it on whitespace runs, keep the tokens of length > 2 that are not
purely numeric, delete every `.` `,` `!` `?` character from the kept tokens,
take the first 10, then deduplicate via `new Set` (first-occurrence order).
Token length is measured before punctuation removal, punctuation is removed
globally, and the `slice(0, 10)` happens before the deduplication — exactly
as in the source. -/
def extractKeywords (content : String) : List String :=
  dedupFirst
    ((((splitWs (asciiToLower content).data).filter
        (fun w => decide (2 < w.length) && !isNumericTok w)).map
        (fun w => String.mk (stripPunct w))).take 10)

/-- The search-term list computed inside `searchNodes`: lower-case the
query, split on whitespace, keep the tokens of length > 2, deduplicate via
`new Set`.  There is no numeric filter, no punctuation removal and no cap,
unlike `extractKeywords`. -/
def searchTermsOf (query : String) : List String :=
  dedupFirst
    (((splitWs (asciiToLower query).data).filter
        (fun w => decide (2 < w.length))).map (fun w => String.mk w))

/-! ## JSON codec for string arrays

The `keywords` hash field holds `JSON.stringify(node.keywords)` and is read
back with `JSON.parse`.  The model implements the exact `JSON.stringify`
text for arrays of strings and a parser for that grammar.  `JSON.parse`
itself would also accept inter-token whitespace (never produced by
`JSON.stringify`) and non-array JSON values (which the TypeScript cast in
`parseNode` does not rule out, but which the system never writes); the model
treats those as parse failures, matching the spec's reading that a malformed
`keywords` field makes the whole node unparsable. -/

/-- Lower-case hexadecimal digit, as emitted by `JSON.stringify`'s
`\u00XX` escapes. -/
def hexDigitChar (n : Nat) : Char :=
  if n < 10 then Char.ofNat (48 + n) else Char.ofNat (87 + n)

/-- Value of a hexadecimal digit accepted by `JSON.parse`. -/
def hexVal (c : Char) : Option Nat :=
  if '0' ≤ c && c ≤ '9' then some (c.toNat - 48)
  else if 'a' ≤ c && c ≤ 'f' then some (c.toNat - 87)
  else if 'A' ≤ c && c ≤ 'F' then some (c.toNat - 55)
  else none

/-- `JSON.stringify`'s escaping of one character: `"` and `\` are
backslash-escaped, the common control characters get their short escapes,
the remaining control characters become `\u00XX`, everything else is
emitted verbatim. -/
def escapeChar (c : Char) : List Char :=
  if c = '"' then ['\\', '"']
  else if c = '\\' then ['\\', '\\']
  else if c = '\x08' then ['\\', 'b']
  else if c = '\x09' then ['\\', 't']
  else if c = '\x0a' then ['\\', 'n']
  else if c = '\x0c' then ['\\', 'f']
  else if c = '\x0d' then ['\\', 'r']
  else if c.toNat < 32 then
    ['\\', 'u', '0', '0', hexDigitChar (c.toNat / 16), hexDigitChar (c.toNat % 16)]
  else [c]

/-- Escaped body of a JSON string literal. -/
def escapeList (l : List Char) : List Char :=
  (l.map escapeChar).flatten

/-- A JSON string literal: quote, escaped body, quote. -/
def quoteStr (s : String) : List Char :=
  '"' :: (escapeList s.data ++ ['"'])

/-- Comma-separated concatenation, as between JSON array elements. -/
def sepComma : List (List Char) → List Char
  | [] => []
  | [x] => x
  | x :: xs => x ++ ',' :: sepComma xs

/-- `JSON.stringify` of an array of strings. -/
def stringifyStrings (l : List String) : String :=
  String.mk ('[' :: (sepComma (l.map quoteStr) ++ [']']))

/-- Decoding of the two-character escapes accepted by `JSON.parse`. -/
def decodeEscSimple (e : Char) : Option Char :=
  if e = '"' then some '"'
  else if e = '\\' then some '\\'
  else if e = '/' then some '/'
  else if e = 'b' then some '\x08'
  else if e = 't' then some '\x09'
  else if e = 'n' then some '\x0a'
  else if e = 'f' then some '\x0c'
  else if e = 'r' then some '\x0d'
  else none

/-- Decoding of a `\uXXXX` escape.  Surrogate escape pairs never occur in
data written by this system (`JSON.stringify` only emits `\u00XX` for
control characters), so a code unit that is not a scalar value is rejected
rather than paired. -/
def decodeUChar (h1 h2 h3 h4 : Char) : Option Char :=
  match hexVal h1, hexVal h2, hexVal h3, hexVal h4 with
  | some a, some b, some c, some d =>
    let n := ((a * 16 + b) * 16 + c) * 16 + d
    if Nat.isValidChar n then some (Char.ofNat n) else none
  | _, _, _, _ => none

/-- Decode a JSON string body (the input begins just after the opening
quote) up to and including the closing quote, returning the decoded
characters and the unconsumed rest of the input.  Raw control characters
are rejected, as in `JSON.parse`. -/
def decodeBody : List Char → Option (List Char × List Char)
  | [] => none
  | c :: rest =>
    if c = '"' then some ([], rest)
    else if c = '\\' then
      match rest with
      | [] => none
      | e :: rest2 =>
        if e = 'u' then
          match rest2 with
          | h1 :: h2 :: h3 :: h4 :: rest3 =>
            match decodeUChar h1 h2 h3 h4, decodeBody rest3 with
            | some ch, some (s, r) => some (ch :: s, r)
            | _, _ => none
          | _ => none
        else
          match decodeEscSimple e, decodeBody rest2 with
          | some ch, some (s, r) => some (ch :: s, r)
          | _, _ => none
    else if c.toNat < 32 then none
    else
      match decodeBody rest with
      | none => none
      | some (s, r) => some (c :: s, r)

/-- Parse the comma-separated string literals of a JSON array body (the
input begins at the first element's opening quote).  One unit of fuel is
spent per element; since every element occupies at least one character,
fuel equal to the input length always suffices. -/
def parseElemsF : Nat → List Char → Option (List (List Char) × List Char)
  | 0, _ => none
  | fuel + 1, l =>
    match l with
    | [] => none
    | c :: rest =>
      if c = '"' then
        match decodeBody rest with
        | none => none
        | some (s, rest2) =>
          match rest2 with
          | ',' :: rest3 =>
            match parseElemsF fuel rest3 with
            | none => none
            | some (ss, r) => some (s :: ss, r)
          | _ => some ([s], rest2)
      else none

/-- `JSON.parse` restricted to arrays of strings: accepts exactly the texts
`[]` and `["…",…,"…"]` with JSON string-literal escapes, rejecting
everything else (see the section comment for the deliberate differences
from full `JSON.parse`). -/
def parseStrings (str : String) : Option (List String) :=
  match str.data with
  | [] => none
  | c :: rest =>
    if c = '[' then
      match rest with
      | [] => none
      | d :: rest2 =>
        if d = ']' then (if rest2 = [] then some [] else none)
        else
          match parseElemsF (d :: rest2).length (d :: rest2) with
          | none => none
          | some (ss, r) => if r = [']'] then some (ss.map String.mk) else none
    else none

/-! ## Node record and its hash representation -/

/-- The `KnowledgeNode` interface.  `type` is `"note"` or `"url"` for every
node the system creates, but `parseNode`'s cast does not check the stored
text, so the model leaves the field an arbitrary string. -/
structure KnowledgeNode where
  id : String
  content : String
  type : String
  createdAt : String
  keywords : List String
deriving DecidableEq, Repr

/-- Field lookup in the flat hash returned by `hgetall` (first match, as in
a JavaScript object / Redis hash, where field names are unique anyway). -/
def lookupField (h : List (String × String)) (f : String) : Option String :=
  match h with
  | [] => none
  | (g, v) :: rest => if g = f then some v else lookupField rest f

/-- `parseNode` from `src/lib/actions.ts`: `null`/empty hash means
not-found; the `keywords` field (defaulting to `'[]'` when absent or empty,
via `redisResult.keywords || '[]'`) is JSON-parsed, and a parse failure
makes the whole node unparsable.  A missing scalar field is modelled as the
empty string (the TypeScript cast would propagate `undefined`; no claim
distinguishes the two, and the system always writes all five fields). -/
def parseNode (h : List (String × String)) : Option KnowledgeNode :=
  if h.isEmpty then none
  else
    match parseStrings
        (match lookupField h "keywords" with
         | none => "[]"
         | some v => if v = "" then "[]" else v) with
    | none => none
    | some ks =>
      some { id := (lookupField h "id").getD ""
             content := (lookupField h "content").getD ""
             type := (lookupField h "type").getD ""
             createdAt := (lookupField h "createdAt").getD ""
             keywords := ks }

/-- The `StorableNode` hash written by the actions:
`{...node, keywords: JSON.stringify(node.keywords)}`, fields in property
order. -/
def storableFields (n : KnowledgeNode) : List (String × String) :=
  [("id", n.id), ("content", n.content), ("type", n.type),
   ("createdAt", n.createdAt), ("keywords", stringifyStrings n.keywords)]

/-! ## The storage backend: hashes, sets, pipelined commands -/

/-- One Redis command issued through a pipeline by the mutating actions
(`hgetall` is the read issued before `update`/`delete`). -/
inductive DbOp where
  | hgetall (key : String)
  | hset (key : String) (fields : List (String × String))
  | sadd (key : String) (member : String)
  | srem (key : String) (member : String)
  | del (key : String)
deriving DecidableEq, Repr

/-- Whether a command writes to storage. -/
def DbOp.isMutating : DbOp → Bool
  | .hgetall _ => false
  | _ => true

/-- The storage state: every key holds a (possibly empty) hash and a
(possibly empty) set.  An empty hash is a missing record (`hgetall` of a
missing key yields `{}`), and sets are member lists without duplicates in
insertion order (only membership is ever observed). -/
structure Store where
  hashes : String → List (String × String)
  sets : String → List String

/-- The state with no records at all. -/
def emptyStore : Store :=
  { hashes := fun _ => [], sets := fun _ => [] }

/-- `HSET key field value` semantics for a single field: overwrite the field
if present, append it otherwise (hash fields are unique, so replacing the
first occurrence is the general statement of "overwrite"). -/
def setField : List (String × String) → String → String → List (String × String)
  | [], f, v => [(f, v)]
  | p :: rest, f, v => if p.1 = f then (f, v) :: rest else p :: setField rest f v

/-- `HSET key {fields}`: set each given field, leaving the others alone. -/
def hsetFields (h : List (String × String)) (fields : List (String × String)) :
    List (String × String) :=
  fields.foldl (fun acc fv => setField acc fv.1 fv.2) h

/-- Effect of one command on the store (`hgetall` reads, so it is the
identity). -/
def applyOp (s : Store) : DbOp → Store
  | .hgetall _ => s
  | .hset key fields =>
    { s with hashes := fun k =>
        if k = key then hsetFields (s.hashes key) fields else s.hashes k }
  | .sadd key m =>
    { s with sets := fun k =>
        if k = key then (if m ∈ s.sets key then s.sets key else s.sets key ++ [m])
        else s.sets k }
  | .srem key m =>
    { s with sets := fun k =>
        if k = key then (s.sets key).filter (fun x => x ≠ m) else s.sets k }
  | .del key =>
    { s with hashes := fun k => if k = key then [] else s.hashes k }

/-- `pipeline.exec()`: the accumulated commands are applied in submission
order. -/
def execOps (s : Store) (ops : List DbOp) : Store :=
  ops.foldl applyOp s

/-- The shape of a UUID accepted by `z.string().uuid()`: five groups of
8-4-4-4-12 hexadecimal digits separated by dashes (zod's
`/^[0-9a-fA-F]{8}-[0-9a-fA-F]{4}-[0-9a-fA-F]{4}-[0-9a-fA-F]{4}-[0-9a-fA-F]{12}$/`
check; the ids the system generates with `uuidv4()` always pass it). -/
def isHexChar (c : Char) : Bool :=
  ('0' ≤ c && c ≤ '9') || ('a' ≤ c && c ≤ 'f') || ('A' ≤ c && c ≤ 'F')

/-- One dash-separated group of exactly `n` hexadecimal digits. -/
def hexRun (l : List Char) (n : Nat) : Bool :=
  l.length == n && l.all isHexChar

/-- Split on the dash separators of a UUID. -/
def splitOnDashAux : List Char → List Char → List (List Char)
  | [], acc => [acc.reverse]
  | c :: rest, acc =>
    if c = '-' then acc.reverse :: splitOnDashAux rest []
    else splitOnDashAux rest (c :: acc)

/-- Dash-separated groups of a string's characters. -/
def splitOnDash (l : List Char) : List (List Char) :=
  splitOnDashAux l []

/-- Validity of a node id under `z.string().uuid()`. -/
def isValidUuid (id : String) : Bool :=
  match splitOnDash id.data with
  | [a, b, c, d, e] => hexRun a 8 && hexRun b 4 && hexRun c 4 && hexRun d 4 && hexRun e 12
  | _ => false

/-! ## The server actions (mutating paths)

Each action is modelled as a function of the current store and its typed
inputs (the id generated by `uuidv4()` and the `new Date().toISOString()`
timestamp are extra parameters for `create`).  It returns the caller-visible
result, the store after the pipeline runs, and the list of storage commands
issued — reads included — so that "no storage command is issued" is
directly expressible.  `revalidatePath` and `console.error` have no effect
on storage and are not modelled; the backend in these paths is assumed not
to throw (the read paths' failure behavior is modelled separately). -/

/-- Result record of `addNodeAction` (`AddNodeFormState`). -/
structure AddNodeFormState where
  status : String
  message : String
deriving DecidableEq, Repr

/-- Result record of `deleteNodeAction` and `editNodeAction`. -/
structure ActionResponse where
  success : Bool
  message : String
deriving DecidableEq, Repr

/-- The node built by `addNodeAction` before writing. -/
def mkNode (content nodeId now : String) : KnowledgeNode :=
  { id := nodeId
    content := content
    type := if content.startsWith "http" then "url" else "note"
    createdAt := now
    keywords := extractKeywords content }

/-- The pipeline built by `addNodeAction`: `hset node:<id>`,
`sadd nodes <id>`, and one `sadd keyword:<kw> <id>` per keyword of the new
node. -/
def createOps (content nodeId now : String) : List DbOp :=
  DbOp.hset ("node:" ++ nodeId) (storableFields (mkNode content nodeId now)) ::
  DbOp.sadd "nodes" nodeId ::
  (mkNode content nodeId now).keywords.map (fun kw => DbOp.sadd ("keyword:" ++ kw) nodeId)

/-- `addNodeAction`: validate the content length (zod `min(3)`), build the
node, then submit `createOps`. -/
def addNodeAction (s : Store) (content nodeId now : String) :
    AddNodeFormState × Store × List DbOp :=
  if content.length < 3 then
    ({ status := "error", message := "Content must be at least 3 characters." }, s, [])
  else
    ({ status := "success", message := "Node added!" },
      execOps s (createOps content nodeId now), createOps content nodeId now)

/-- `deleteNodeAction`: validate the id, read and parse the record, and on
success pipeline `srem nodes`, one `srem keyword:<kw>` per stored keyword,
and `del node:<id>`. -/
def deleteNodeAction (s : Store) (nodeId : String) :
    ActionResponse × Store × List DbOp :=
  if !isValidUuid nodeId then
    ({ success := false, message := "Invalid Node ID." }, s, [])
  else
    match parseNode (s.hashes ("node:" ++ nodeId)) with
    | none =>
      ({ success := false, message := "Node not found." }, s,
        [DbOp.hgetall ("node:" ++ nodeId)])
    | some node =>
      let ops : List DbOp :=
        DbOp.srem "nodes" nodeId ::
        (node.keywords.map (fun kw => DbOp.srem ("keyword:" ++ kw) nodeId) ++
          [DbOp.del ("node:" ++ nodeId)])
      ({ success := true, message := "Node deleted." }, execOps s ops,
        DbOp.hgetall ("node:" ++ nodeId) :: ops)

/-- The keyword diff computed inside `editNodeAction`:
`[...newSet].filter(kw => !oldSet.has(kw))` and symmetrically
(`Set` membership is list membership). -/
def diffKeywords (oldKw newKw : List String) : List String × List String :=
  ((dedupFirst newKw).filter (fun kw => !decide (kw ∈ oldKw)),
   (dedupFirst oldKw).filter (fun kw => !decide (kw ∈ newKw)))

/-- `editNodeAction`: validate id and content, read and parse the record,
diff old and new keywords, and on success pipeline an `hset` of only the
`content` and `keywords` fields plus the index `sadd`/`srem` deltas. -/
def editNodeAction (s : Store) (nodeId content : String) :
    ActionResponse × Store × List DbOp :=
  if !isValidUuid nodeId || content.length < 3 then
    ({ success := false, message := "Invalid data." }, s, [])
  else
    match parseNode (s.hashes ("node:" ++ nodeId)) with
    | none =>
      ({ success := false, message := "Node not found." }, s,
        [DbOp.hgetall ("node:" ++ nodeId)])
    | some oldNode =>
      let newKeywords := dedupFirst (extractKeywords content)
      let diff := diffKeywords oldNode.keywords (extractKeywords content)
      let ops : List DbOp :=
        DbOp.hset ("node:" ++ nodeId)
          [("content", content), ("keywords", stringifyStrings newKeywords)] ::
        (diff.1.map (fun kw => DbOp.sadd ("keyword:" ++ kw) nodeId) ++
          diff.2.map (fun kw => DbOp.srem ("keyword:" ++ kw) nodeId))
      ({ success := true, message := "Node updated." }, execOps s ops,
        DbOp.hgetall ("node:" ++ nodeId) :: ops)

/-! ## The read paths

`getAllNodes` and `searchNodes` wrap every backend round trip in
`try`/`catch` and return `[]` on failure; within a pipeline, a per-command
error makes that entry `null`, which is then filtered out.  To express this
the read paths run against a `Backend` oracle whose operations may fail; an
infallible oracle backed by a `Store` is defined below for use after the
mutating actions. -/

/-- The backend operations used by the read paths, each of which may fail
(`Except.error ()` stands for a thrown/errored round trip).  `hgetallBatch`
is the pipeline of `hgetall` commands: the outer `Except` is `exec` itself
throwing, the inner ones are the per-command `[err, data]` pairs. -/
structure Backend where
  smembers : String → Except Unit (List String)
  sunion : List String → Except Unit (List String)
  hgetallBatch : List String → Except Unit (List (Except Unit (List (String × String))))

/-- The infallible backend reading from a store.  `SUNION` returns the
distinct members of the listed sets (order is unspecified in Redis; the
model concatenates and deduplicates). -/
def storeBackend (s : Store) : Backend :=
  { smembers := fun key => Except.ok (s.sets key)
    sunion := fun keys => Except.ok (dedupFirst ((keys.map s.sets).flatten))
    hgetallBatch := fun keys => Except.ok (keys.map (fun k => Except.ok (s.hashes k))) }

/-- Insertion of one node into a list sorted newest-first (see
`sortByCreatedAtDesc`). -/
def insertDesc (n : KnowledgeNode) : List KnowledgeNode → List KnowledgeNode
  | [] => [n]
  | m :: ms => if m.createdAt < n.createdAt then n :: m :: ms else m :: insertDesc n ms

/-- The `.sort((a, b) => new Date(b.createdAt).getTime() - new
Date(a.createdAt).getTime())` at the end of both read paths: newest first.
`createdAt` values are `toISOString()` timestamps, whose lexicographic
order agrees with chronological order, so the model compares the strings;
a stable insertion sort models V8's stable `Array.prototype.sort`. -/
def sortByCreatedAtDesc : List KnowledgeNode → List KnowledgeNode
  | [] => []
  | n :: ns => insertDesc n (sortByCreatedAtDesc ns)

/-- `results.map(([err, data]) => err ? null : parseNode(data)).filter(n => n !== null)`. -/
def nodesFromBatch (results : List (Except Unit (List (String × String)))) :
    List KnowledgeNode :=
  results.filterMap (fun r =>
    match r with
    | .error _ => none
    | .ok data => parseNode data)

/-- `getAllNodes`: read the registry set, batch-read every record, drop
errored or unparsable entries, sort newest first; any thrown round trip is
caught and yields `[]`. -/
def getAllNodes (b : Backend) : List KnowledgeNode :=
  match b.smembers "nodes" with
  | .error _ => []
  | .ok nodeIds =>
    if nodeIds.isEmpty then []
    else
      match b.hgetallBatch (nodeIds.map (fun id => "node:" ++ id)) with
      | .error _ => []
      | .ok results => sortByCreatedAtDesc (nodesFromBatch results)

/-- `searchNodes`: trim/tokenize the query, union the keyword index sets of
the terms, batch-read and parse the matching records, sort newest first;
any thrown round trip is caught and yields `[]`. -/
def searchNodes (b : Backend) (query : String) : List KnowledgeNode :=
  if (jsTrim query).isEmpty then []
  else
    let searchTerms := searchTermsOf query
    if searchTerms.isEmpty then []
    else
      match b.sunion (searchTerms.map (fun t => "keyword:" ++ t)) with
      | .error _ => []
      | .ok matchingNodeIds =>
        if matchingNodeIds.isEmpty then []
        else
          match b.hgetallBatch (matchingNodeIds.map (fun id => "node:" ++ id)) with
          | .error _ => []
          | .ok results => sortByCreatedAtDesc (nodesFromBatch results)

/-- A command that only touches sets (the index maintenance commands). -/
def DbOp.isSetOp : DbOp → Prop
  | .sadd _ _ => True
  | .srem _ _ => True
  | _ => False

/-! ## Definitions modelled from the spec (for the refinement claims C3/C4)

The following definitions follow the words of spec section 4.1 rather than
the source, in order to compare the two. -/

/-- Modelled from the spec: "strip trailing/leading punctuation characters
(`. , ! ?`) from each surviving token" — only the ends of the token. -/
def specStripEnds (t : List Char) : List Char :=
  ((t.dropWhile isPunctChar).reverse.dropWhile isPunctChar).reverse

/-- Modelled from the spec, section 4.1, in its stated step order: lower-case;
split on whitespace runs; discard tokens of length ≤ 2; discard purely
numeric tokens; strip leading/trailing punctuation from each surviving
token; deduplicate preserving first occurrence; truncate to the first 10. -/
def specExtractKeywords (text : String) : List String :=
  (dedupFirst
    (((splitWs (asciiToLower text).data).filter
        (fun w => decide (2 < w.length) && !isNumericTok w)).map
        (fun w => String.mk (specStripEnds w)))).take 10

/-- Modelled from the spec: the query tokenizer of the search section,
"the same rule as 4.1 but without the 10-token cap". -/
def specSearchTokens (query : String) : List String :=
  dedupFirst
    (((splitWs (asciiToLower query).data).filter
        (fun w => decide (2 < w.length) && !isNumericTok w)).map
        (fun w => String.mk (specStripEnds w)))

/-- The section-4.1 pipeline with the source's three divergences made
explicit: the length/numeric filters are applied to the raw whitespace
tokens, the punctuation characters are removed everywhere in a token, and
the cap to 10 is applied to the token stream before deduplication. -/
def amendedTokenizer (text : String) : List String :=
  dedupFirst
    ((((splitWs (asciiToLower text).data).filter
        (fun w => decide (2 < w.length) && !isNumericTok w)).take 10).map
        (fun w => String.mk (stripPunct w)))

/-! ## Concrete fixtures used by the witness theorems -/

/-- A backend whose every round trip fails. -/
def failingBackend : Backend :=
  { smembers := fun _ => Except.error ()
    sunion := fun _ => Except.error ()
    hgetallBatch := fun _ => Except.error () }

/-- A well-formed node id (version-agnostic UUID shape). -/
def sampleUuid : String := "123e4567-e89b-12d3-a456-426614174000"

/-- A stored node used to exercise the update path. -/
def sampleNode : KnowledgeNode :=
  { id := sampleUuid
    content := "old words here"
    type := "note"
    createdAt := "2026-01-01T00:00:00.000Z"
    keywords := ["old", "words", "here"] }

/-- A store holding exactly `sampleNode`. -/
def sampleStore : Store :=
  { hashes := fun k =>
      if k = "node:" ++ sampleUuid then storableFields sampleNode else []
    sets := fun k =>
      if k = "nodes" then [sampleUuid]
      else if k = "keyword:old" || k = "keyword:words" || k = "keyword:here" then
        [sampleUuid]
      else [] }

example : extractKeywords "a., 1.23" = ["a", "123"] := by decide

example : extractKeywords "a.b" = ["ab"] := by decide

example : searchTermsOf "ab. 123 Hello hello" = ["ab.", "123", "hello"] := by decide

example : decodeBody "ab\\n\\u0001c\"]".data = some ("ab\n\x01c".data, [']']) := by decide

example : decodeBody (escapeList "x\"y\\z\x01".data ++ '"' :: [']']) =
    some ("x\"y\\z\x01".data, [']']) := by decide

example : parseStrings "[]" = some [] := by decide

example : parseStrings "[\"ab\",\"c\"]" = some ["ab", "c"] := by decide

example : parseStrings "[\"a\\\"b\"]" = some ["a\"b"] := by decide

example : parseStrings "[\"a\"" = none := by decide

example : parseStrings "nope" = none := by decide

example : parseStrings "[\"\"]" = some [""] := by decide

example : parseStrings (stringifyStrings ["x\"y", "z\\w", "\x01\x02"]) =
    some ["x\"y", "z\\w", "\x01\x02"] := by decide

/-! ### Round-trip of the JSON codec -/

theorem stringMk_data (s : String) : String.mk s.data = s := by
  cases s
  rfl

theorem hexVal_hexDigitChar (m : Nat) (hm : m < 16) :
    hexVal (hexDigitChar m) = some m := by
  interval_cases m <;> decide

theorem decodeUChar_encode (c : Char) (hc : c.toNat < 32) :
    decodeUChar '0' '0' (hexDigitChar (c.toNat / 16)) (hexDigitChar (c.toNat % 16)) =
      some c := by
  have hd1 := hexVal_hexDigitChar (c.toNat / 16) (by omega)
  have hd2 := hexVal_hexDigitChar (c.toNat % 16) (by omega)
  have h0 : hexVal '0' = some 0 := by decide
  have hval : Nat.isValidChar c.toNat := Or.inl (by omega)
  rw [decodeUChar.eq_def, hd1, hd2, h0]
  have hn : ((0 * 16 + 0) * 16 + c.toNat / 16) * 16 + c.toNat % 16 = c.toNat := by omega
  simp only []
  rw [hn]
  simp [hval, Char.ofNat_toNat]

theorem decodeBody_escapeChar (c : Char) (tail s r : List Char)
    (h : decodeBody tail = some (s, r)) :
    decodeBody (escapeChar c ++ tail) = some (c :: s, r) := by
  by_cases h1 : c = '"'
  · subst h1
    simp only [escapeChar, if_pos rfl, List.cons_append, List.nil_append]
    rw [decodeBody.eq_def]
    simp [decodeEscSimple, h]
  by_cases h2 : c = '\\'
  · subst h2
    simp only [escapeChar]
    norm_num
    rw [decodeBody.eq_def]
    simp [decodeEscSimple, h]
  by_cases h3 : c = '\x08'
  · subst h3
    simp only [escapeChar]
    norm_num
    rw [decodeBody.eq_def]
    simp [decodeEscSimple, h]
  by_cases h4 : c = '\x09'
  · subst h4
    simp only [escapeChar]
    norm_num
    rw [decodeBody.eq_def]
    simp [decodeEscSimple, h]
  by_cases h5 : c = '\x0a'
  · subst h5
    simp only [escapeChar]
    norm_num
    rw [decodeBody.eq_def]
    simp [decodeEscSimple, h]
  by_cases h6 : c = '\x0c'
  · subst h6
    simp only [escapeChar]
    norm_num
    rw [decodeBody.eq_def]
    simp [decodeEscSimple, h]
  by_cases h7 : c = '\x0d'
  · subst h7
    simp only [escapeChar]
    norm_num
    rw [decodeBody.eq_def]
    simp [decodeEscSimple, h]
  by_cases h8 : c.toNat < 32
  · have henc := decodeUChar_encode c h8
    simp only [escapeChar, h1, h2, h3, h4, h5, h6, h7, if_neg, if_pos h8,
      ite_false, List.cons_append]
    rw [decodeBody.eq_def]
    simp [henc, h]
  · simp only [escapeChar, h1, h2, h3, h4, h5, h6, h7, h8, ite_false,
      List.cons_append, List.nil_append]
    rw [decodeBody.eq_def]
    simp [h1, h2, h8, h]

theorem decodeBody_escapeList (cs tail : List Char) :
    decodeBody (escapeList cs ++ '"' :: tail) = some (cs, tail) := by
  induction cs with
  | nil =>
    simp only [escapeList, List.map_nil, List.flatten_nil, List.nil_append]
    rw [decodeBody.eq_def]
    simp
  | cons c cs ih =>
    have : escapeList (c :: cs) = escapeChar c ++ escapeList cs := by
      simp [escapeList]
    rw [this, List.append_assoc]
    exact decodeBody_escapeChar c _ cs tail ih

theorem quoteStr_length_pos (k : String) : 0 < (quoteStr k).length := by
  simp [quoteStr]

theorem length_le_sepComma_quote :
    ∀ ks : List String, ks.length ≤ (sepComma (ks.map quoteStr)).length := by
  intro ks
  induction ks with
  | nil => simp [sepComma]
  | cons k ks ih =>
    cases ks with
    | nil =>
      have hq := quoteStr_length_pos k
      simp only [List.map_cons, List.map_nil, sepComma, List.length_cons, List.length_nil]
      omega
    | cons k2 ks2 =>
      have hq := quoteStr_length_pos k
      simp only [List.map_cons, sepComma, List.length_append, List.length_cons] at ih ⊢
      omega

theorem sepComma_quote_cons (k : String) (rest : List (List Char)) :
    ∃ t, sepComma (quoteStr k :: rest) = '"' :: t := by
  cases rest with
  | nil => exact ⟨escapeList k.data ++ ['"'], rfl⟩
  | cons y ys => exact ⟨(escapeList k.data ++ ['"']) ++ ',' :: sepComma (y :: ys), rfl⟩

theorem parseElemsF_stringify :
    ∀ (ks : List String) (k : String) (fuel : Nat), ks.length < fuel →
      parseElemsF fuel (sepComma ((k :: ks).map quoteStr) ++ [']']) =
        some ((k :: ks).map String.data, [']']) := by
  intro ks
  induction ks with
  | nil =>
    intro k fuel hfuel
    match fuel, hfuel with
    | fuel + 1, _ =>
      simp only [List.map_cons, List.map_nil, sepComma, quoteStr, List.cons_append,
        List.append_assoc, List.singleton_append]
      rw [parseElemsF.eq_def]
      simp only [if_pos rfl]
      rw [decodeBody_escapeList]
      rfl
  | cons k2 ks2 ih =>
    intro k fuel hfuel
    match fuel, hfuel with
    | fuel + 1, hf =>
      have hks : ks2.length < fuel := by
        simp only [List.length_cons] at hf
        omega
      have hrec := ih k2 fuel hks
      simp only [List.map_cons, sepComma, quoteStr, List.cons_append,
        List.append_assoc, List.singleton_append] at hrec ⊢
      rw [parseElemsF.eq_def]
      simp only [if_pos rfl]
      rw [decodeBody_escapeList]
      simp only [List.nil_append]
      simp [hrec]

theorem parseStrings_stringify (ks : List String) :
    parseStrings (stringifyStrings ks) = some ks := by
  cases ks with
  | nil => decide
  | cons k ks =>
    obtain ⟨t, ht0⟩ := sepComma_quote_cons k (ks.map quoteStr)
    have ht : sepComma ((k :: ks).map quoteStr) ++ [']'] = '"' :: (t ++ [']']) := by
      simp only [List.map_cons, ht0, List.cons_append]
    have hlen : (k :: ks).length < ('"' :: (t ++ [']'])).length := by
      have h1 := length_le_sepComma_quote (k :: ks)
      have h2 := congrArg List.length ht
      simp only [List.length_append, List.length_cons, List.length_nil] at h1 h2 ⊢
      omega
    have hparse := parseElemsF_stringify ks k ('"' :: (t ++ [']'])).length
      (by simp only [List.length_cons] at hlen ⊢; omega)
    rw [ht] at hparse
    simp only [stringifyStrings, parseStrings]
    rw [ht]
    simp only [if_pos rfl]
    have hq : ('"' = ']') = False := by decide
    simp only [hq, if_false]
    rw [hparse]
    simp [List.map_map, Function.comp_def, stringMk_data]

theorem stringifyStrings_ne_empty (ks : List String) : stringifyStrings ks ≠ "" := by
  intro h
  have := congrArg String.data h
  simp [stringifyStrings] at this

example : isValidUuid "123e4567-e89b-12d3-a456-426614174000" = true := by decide

example : isValidUuid "not-a-uuid" = false := by decide

example : isValidUuid "" = false := by decide

/-! ## Helper lemmas: deduplication -/

theorem mem_dedupFirstAux [DecidableEq α] (seen : List α) (l : List α) (x : α) :
    x ∈ dedupFirstAux seen l ↔ x ∈ l ∧ x ∉ seen := by
  induction l generalizing seen with
  | nil => simp [dedupFirstAux]
  | cons y ys ih =>
    by_cases hy : y ∈ seen
    · rw [dedupFirstAux, if_pos hy, ih]
      constructor
      · rintro ⟨hx, hns⟩
        exact ⟨List.mem_cons_of_mem _ hx, hns⟩
      · rintro ⟨hx, hns⟩
        rcases List.mem_cons.mp hx with rfl | hx
        · exact absurd hy hns
        · exact ⟨hx, hns⟩
    · rw [dedupFirstAux, if_neg hy]
      constructor
      · intro hmem
        rcases List.mem_cons.mp hmem with rfl | hmem
        · exact ⟨List.mem_cons_self _ _, hy⟩
        · obtain ⟨hx, hns⟩ := (ih (y :: seen)).mp hmem
          refine ⟨List.mem_cons_of_mem _ hx, fun hs => hns (List.mem_cons_of_mem _ hs)⟩
      · rintro ⟨hx, hns⟩
        rcases List.mem_cons.mp hx with rfl | hx
        · exact List.mem_cons_self _ _
        · by_cases hxy : x = y
          · subst hxy
            exact List.mem_cons_self _ _
          · refine List.mem_cons_of_mem _ ((ih (y :: seen)).mpr ⟨hx, fun hs => ?_⟩)
            rcases List.mem_cons.mp hs with h | h
            · exact hxy h
            · exact hns h

theorem mem_dedupFirst [DecidableEq α] (l : List α) (x : α) :
    x ∈ dedupFirst l ↔ x ∈ l := by
  simp [dedupFirst, mem_dedupFirstAux]

theorem dedupFirstAux_sublist [DecidableEq α] (seen : List α) (l : List α) :
    List.Sublist (dedupFirstAux seen l) l := by
  induction l generalizing seen with
  | nil => simp [dedupFirstAux]
  | cons y ys ih =>
    by_cases hy : y ∈ seen
    · rw [dedupFirstAux, if_pos hy]
      exact (ih seen).cons y
    · rw [dedupFirstAux, if_neg hy]
      exact (ih (y :: seen)).cons₂ y

theorem dedupFirst_sublist [DecidableEq α] (l : List α) :
    List.Sublist (dedupFirst l) l :=
  dedupFirstAux_sublist [] l

theorem nodup_dedupFirstAux [DecidableEq α] (seen : List α) (l : List α) :
    (dedupFirstAux seen l).Nodup := by
  induction l generalizing seen with
  | nil => simp [dedupFirstAux]
  | cons y ys ih =>
    by_cases hy : y ∈ seen
    · rw [dedupFirstAux, if_pos hy]
      exact ih seen
    · rw [dedupFirstAux, if_neg hy]
      refine List.nodup_cons.mpr ⟨fun hmem => ?_, ih (y :: seen)⟩
      exact ((mem_dedupFirstAux _ _ _).mp hmem).2 (List.mem_cons_self y seen)

theorem nodup_dedupFirst [DecidableEq α] (l : List α) : (dedupFirst l).Nodup :=
  nodup_dedupFirstAux [] l

theorem dedupFirst_length_le [DecidableEq α] (l : List α) :
    (dedupFirst l).length ≤ l.length :=
  (dedupFirst_sublist l).length_le

theorem dedupFirst_singleton [DecidableEq α] (x : α) : dedupFirst [x] = [x] := by
  simp [dedupFirst, dedupFirstAux]

/-! ## Helper lemmas: whitespace splitting -/

theorem splitWsAux_chars (l0 : List Char) :
    ∀ (l acc : List Char) (b : Bool),
      (∀ c ∈ l, c ∈ l0) → (∀ c ∈ acc, jsWhitespace c = false ∧ c ∈ l0) →
      ∀ t ∈ splitWsAux l acc b, ∀ c ∈ t, jsWhitespace c = false ∧ c ∈ l0 := by
  intro l
  induction l with
  | nil =>
    intro acc b hl hacc t ht c hc
    simp only [splitWsAux, List.mem_singleton] at ht
    subst ht
    exact hacc c (List.mem_reverse.mp hc)
  | cons c0 rest ih =>
    intro acc b hl hacc t ht c hc
    have hl0 : c0 ∈ l0 := hl c0 (List.mem_cons_self _ _)
    have hlrest : ∀ x ∈ rest, x ∈ l0 := fun x hx => hl x (List.mem_cons_of_mem _ hx)
    cases hws : jsWhitespace c0 with
    | true =>
      cases b with
      | true =>
        rw [splitWsAux, hws, if_pos rfl, if_pos rfl] at ht
        exact ih acc true hlrest hacc t ht c hc
      | false =>
        rw [splitWsAux, hws, if_pos rfl, if_neg (by simp)] at ht
        rcases List.mem_cons.mp ht with rfl | ht
        · exact hacc c (List.mem_reverse.mp hc)
        · exact ih [] true hlrest (by simp) t ht c hc
    | false =>
      rw [splitWsAux, hws, if_neg (by simp)] at ht
      refine ih (c0 :: acc) false hlrest ?_ t ht c hc
      intro x hx
      rcases List.mem_cons.mp hx with rfl | hx
      · exact ⟨hws, hl0⟩
      · exact hacc x hx

theorem splitWs_token_chars (l t : List Char) (ht : t ∈ splitWs l) :
    ∀ c ∈ t, jsWhitespace c = false ∧ c ∈ l := by
  exact splitWsAux_chars l l [] false (fun c hc => hc) (by simp) t ht

theorem splitWsAux_all_not_ws (l : List Char) :
    ∀ acc : List Char, (∀ c ∈ l, jsWhitespace c = false) →
      splitWsAux l acc false = [acc.reverse ++ l] := by
  induction l with
  | nil => intro acc _; simp [splitWsAux]
  | cons c0 rest ih =>
    intro acc hl
    have h0 : jsWhitespace c0 = false := hl c0 (List.mem_cons_self _ _)
    rw [splitWsAux, h0, if_neg (by simp)]
    rw [ih (c0 :: acc) (fun c hc => hl c (List.mem_cons_of_mem _ hc))]
    simp

theorem splitWs_all_not_ws (l : List Char) (hl : ∀ c ∈ l, jsWhitespace c = false) :
    splitWs l = [l] := by
  simpa using splitWsAux_all_not_ws l [] hl

/-! ## Helper lemmas: characters and lower-casing -/

theorem char_le_iff (a b : Char) : a ≤ b ↔ a.toNat ≤ b.toNat :=
  Iff.intro (fun h => h) (fun h => h)

theorem toNat_ofNat_valid (n : Nat) (h : n.isValidChar) : (Char.ofNat n).toNat = n := by
  unfold Char.ofNat
  rw [dif_pos h]
  rfl

theorem asciiToLowerChar_idem (c : Char) :
    asciiToLowerChar (asciiToLowerChar c) = asciiToLowerChar c := by
  unfold asciiToLowerChar
  by_cases h : (decide ('A' ≤ c) && decide (c ≤ 'Z')) = true
  · rw [if_pos h]
    have hb := h
    simp only [Bool.and_eq_true, decide_eq_true_eq] at hb
    have hA : 'A'.toNat = 65 := rfl
    have hZ : 'Z'.toNat = 90 := rfl
    have h1 : 65 ≤ c.toNat := by
      have := (char_le_iff _ _).mp hb.1
      omega
    have h2 : c.toNat ≤ 90 := by
      have := (char_le_iff _ _).mp hb.2
      omega
    have hval : (c.toNat + 32).isValidChar := Or.inl (by omega)
    have htn : (Char.ofNat (c.toNat + 32)).toNat = c.toNat + 32 :=
      toNat_ofNat_valid _ hval
    rw [if_neg]
    intro hcond
    simp only [Bool.and_eq_true, decide_eq_true_eq] at hcond
    have := (char_le_iff _ _).mp hcond.2
    omega
  · rw [if_neg h, if_neg h]

theorem asciiToLower_of_image (k : String)
    (hk : ∀ x ∈ k.data, asciiToLowerChar x = x) : asciiToLower k = k := by
  unfold asciiToLower
  rw [List.map_congr_left hk]
  have : List.map (fun a : Char => a) k.data = k.data := List.map_id' k.data
  rw [this, stringMk_data]

/-! ## Helper lemmas: tokens of `extractKeywords` -/

theorem extractKeywords_token (ct : String) (k : String)
    (hk : k ∈ extractKeywords ct) :
    ∃ w ∈ splitWs (asciiToLower ct).data, 2 < w.length ∧ isNumericTok w = false ∧
      k = String.mk (stripPunct w) := by
  unfold extractKeywords at hk
  have hk2 := (mem_dedupFirst _ _).mp hk
  have hk3 := List.take_subset 10 _ hk2
  obtain ⟨w, hw, rfl⟩ := List.mem_map.mp hk3
  have hw2 := List.mem_filter.mp hw
  refine ⟨w, hw2.1, ?_, ?_, rfl⟩
  · have := hw2.2
    simp only [Bool.and_eq_true, decide_eq_true_eq] at this
    exact this.1
  · have := hw2.2
    simp only [Bool.and_eq_true, Bool.not_eq_true'] at this
    exact this.2

theorem extractKeywords_chars (ct : String) (k : String)
    (hk : k ∈ extractKeywords ct) :
    ∀ x ∈ k.data, jsWhitespace x = false ∧ asciiToLowerChar x = x ∧
      isPunctChar x = false := by
  obtain ⟨w, hw, _, _, rfl⟩ := extractKeywords_token ct k hk
  intro x hx
  have hx2 : x ∈ stripPunct w := hx
  have hx3 := List.mem_filter.mp hx2
  have hxw := splitWs_token_chars _ _ hw x hx3.1
  have hxp : isPunctChar x = false := by
    have := hx3.2
    simp only [Bool.not_eq_true'] at this
    exact this
  refine ⟨hxw.1, ?_, hxp⟩
  have hmem : x ∈ (asciiToLower ct).data := hxw.2
  simp only [asciiToLower] at hmem
  obtain ⟨y, _, rfl⟩ := List.mem_map.mp hmem
  exact asciiToLowerChar_idem y

theorem searchTermsOf_keyword (ct k : String) (hk : k ∈ extractKeywords ct)
    (hlen : 3 ≤ k.length) : searchTermsOf k = [k] := by
  have hchars := extractKeywords_chars ct k hk
  have hlow : asciiToLower k = k :=
    asciiToLower_of_image k (fun x hx => (hchars x hx).2.1)
  unfold searchTermsOf
  rw [hlow, splitWs_all_not_ws k.data (fun c hc => (hchars c hc).1)]
  have hfil : decide (2 < k.data.length) = true := by
    simp only [decide_eq_true_eq]
    exact hlen
  simp only [List.filter_cons, hfil, List.filter_nil, if_true, List.map_cons,
    List.map_nil, stringMk_data]
  exact dedupFirst_singleton k

theorem dropWhile_all_false (p : Char → Bool) :
    ∀ l : List Char, (∀ c ∈ l, p c = false) → l.dropWhile p = l := by
  intro l hl
  cases l with
  | nil => rfl
  | cons c rest =>
    rw [List.dropWhile_cons, if_neg]
    simp [hl c (List.mem_cons_self _ _)]

theorem jsTrim_of_no_ws (k : String) (hk : ∀ c ∈ k.data, jsWhitespace c = false) :
    jsTrim k = k := by
  unfold jsTrim
  rw [dropWhile_all_false _ _ hk,
    dropWhile_all_false _ _ (fun c hc => hk c (List.mem_reverse.mp hc)),
    List.reverse_reverse, stringMk_data]

/-! ## Helper lemmas: hash fields -/

theorem lookupField_setField (h : List (String × String)) (f v g : String) :
    lookupField (setField h f v) g =
      if g = f then some v else lookupField h g := by
  induction h with
  | nil =>
    by_cases hg : g = f
    · subst hg
      simp [setField, lookupField]
    · rw [if_neg hg]
      simp only [setField, lookupField]
      rw [if_neg (fun hfg => hg hfg.symm)]
  | cons p rest ih =>
    by_cases hp : p.1 = f
    · rw [setField, if_pos hp]
      by_cases hg : g = f
      · subst hg
        simp [lookupField]
      · have hpg : ¬p.1 = g := fun hpg => hg (by rw [← hpg, hp])
        rw [if_neg hg, lookupField, if_neg (fun hfg => hg hfg.symm),
          lookupField, if_neg hpg]
    · rw [setField, if_neg hp]
      by_cases hpg : p.1 = g
      · have hg : ¬g = f := fun hgf => hp (hpg.trans hgf)
        rw [if_neg hg, lookupField, if_pos hpg, lookupField, if_pos hpg]
      · rw [lookupField, if_neg hpg, ih, lookupField, if_neg hpg]

theorem lookupField_isEmpty_false (h : List (String × String)) (g v : String)
    (hl : lookupField h g = some v) : h.isEmpty = false := by
  cases h with
  | nil => simp [lookupField] at hl
  | cons p rest => rfl

theorem hsetFields_pair (h : List (String × String)) (f1 v1 f2 v2 : String) :
    hsetFields h [(f1, v1), (f2, v2)] = setField (setField h f1 v1) f2 v2 := rfl

/-! ## Helper lemmas: the serialized node parses back (claim C8 machinery) -/

theorem parseNode_storableFields (n : KnowledgeNode) :
    parseNode (storableFields n) = some n := by
  have hkw : lookupField (storableFields n) "keywords" =
      some (stringifyStrings n.keywords) := by
    simp [storableFields, lookupField]
  unfold parseNode
  rw [hkw]
  simp only [List.isEmpty_eq_true]
  rw [if_neg (by simp [storableFields])]
  rw [if_neg (stringifyStrings_ne_empty n.keywords)]
  rw [parseStrings_stringify]
  simp [storableFields, lookupField]

theorem parseNode_hsetFields_storable (h0 : List (String × String))
    (n : KnowledgeNode) :
    parseNode (hsetFields h0 (storableFields n)) = some n := by
  have e : hsetFields h0 (storableFields n) =
      setField (setField (setField (setField (setField h0
        "id" n.id) "content" n.content) "type" n.type)
        "createdAt" n.createdAt) "keywords" (stringifyStrings n.keywords) := rfl
  rw [e]
  have hkw : lookupField (setField (setField (setField (setField (setField h0
      "id" n.id) "content" n.content) "type" n.type)
      "createdAt" n.createdAt) "keywords" (stringifyStrings n.keywords)) "keywords" =
      some (stringifyStrings n.keywords) := by
    rw [lookupField_setField, if_pos rfl]
  have hid : lookupField (setField (setField (setField (setField (setField h0
      "id" n.id) "content" n.content) "type" n.type)
      "createdAt" n.createdAt) "keywords" (stringifyStrings n.keywords)) "id" =
      some n.id := by
    rw [lookupField_setField, if_neg (by decide), lookupField_setField,
      if_neg (by decide), lookupField_setField, if_neg (by decide),
      lookupField_setField, if_neg (by decide), lookupField_setField, if_pos rfl]
  have hct : lookupField (setField (setField (setField (setField (setField h0
      "id" n.id) "content" n.content) "type" n.type)
      "createdAt" n.createdAt) "keywords" (stringifyStrings n.keywords)) "content" =
      some n.content := by
    rw [lookupField_setField, if_neg (by decide), lookupField_setField,
      if_neg (by decide), lookupField_setField, if_neg (by decide),
      lookupField_setField, if_pos rfl]
  have hty : lookupField (setField (setField (setField (setField (setField h0
      "id" n.id) "content" n.content) "type" n.type)
      "createdAt" n.createdAt) "keywords" (stringifyStrings n.keywords)) "type" =
      some n.type := by
    rw [lookupField_setField, if_neg (by decide), lookupField_setField,
      if_neg (by decide), lookupField_setField, if_pos rfl]
  have hca : lookupField (setField (setField (setField (setField (setField h0
      "id" n.id) "content" n.content) "type" n.type)
      "createdAt" n.createdAt) "keywords" (stringifyStrings n.keywords)) "createdAt" =
      some n.createdAt := by
    rw [lookupField_setField, if_neg (by decide), lookupField_setField, if_pos rfl]
  unfold parseNode
  rw [hkw]
  simp only [List.isEmpty_eq_true]
  rw [if_neg (fun he => by rw [he] at hkw; exact Option.noConfusion hkw)]
  rw [if_neg (stringifyStrings_ne_empty n.keywords)]
  rw [parseStrings_stringify, hid, hct, hty, hca]
  rfl

/-! ## Helper lemmas: pipeline execution -/

theorem execOps_cons (s : Store) (op : DbOp) (ops : List DbOp) :
    execOps s (op :: ops) = execOps (applyOp s op) ops := rfl

theorem hashes_applyOp_sadd (s : Store) (k m : String) :
    (applyOp s (DbOp.sadd k m)).hashes = s.hashes := rfl

theorem hashes_applyOp_srem (s : Store) (k m : String) :
    (applyOp s (DbOp.srem k m)).hashes = s.hashes := rfl

theorem sets_applyOp_hset (s : Store) (k : String) (fs : List (String × String)) :
    (applyOp s (DbOp.hset k fs)).sets = s.sets := rfl

theorem hashes_execOps_setOps (ops : List DbOp) :
    ∀ s : Store, (∀ op ∈ ops, op.isSetOp) → (execOps s ops).hashes = s.hashes := by
  induction ops with
  | nil => intro s _; rfl
  | cons op rest ih =>
    intro s hops
    rw [execOps_cons, ih _ (fun o ho => hops o (List.mem_cons_of_mem _ ho))]
    have h1 := hops op (List.mem_cons_self _ _)
    cases op with
    | sadd k m => rfl
    | srem k m => rfl
    | hgetall k => exact absurd h1 (by simp [DbOp.isSetOp])
    | hset k fs => exact absurd h1 (by simp [DbOp.isSetOp])
    | del k => exact absurd h1 (by simp [DbOp.isSetOp])

theorem mem_sets_applyOp_sadd (s : Store) (key key2 m m2 : String)
    (hm : m ∈ s.sets key) : m ∈ (applyOp s (DbOp.sadd key2 m2)).sets key := by
  simp only [applyOp]
  by_cases hk : key = key2
  · rw [if_pos hk]
    by_cases hmem : m2 ∈ s.sets key2
    · rw [if_pos hmem, ← hk]
      exact hm
    · rw [if_neg hmem, ← hk]
      exact List.mem_append_left _ hm
  · rw [if_neg hk]
    exact hm

theorem mem_sets_applyOp_sadd_self (s : Store) (key m : String) :
    m ∈ (applyOp s (DbOp.sadd key m)).sets key := by
  simp only [applyOp, if_pos rfl]
  by_cases hmem : m ∈ s.sets key
  · rw [if_pos hmem]
    exact hmem
  · rw [if_neg hmem]
    exact List.mem_append_right _ (List.mem_singleton.mpr rfl)

theorem mem_sets_execOps_sadds (kws : List String) :
    ∀ (s : Store) (key m : String), m ∈ s.sets key →
      m ∈ (execOps s (kws.map (fun kw => DbOp.sadd ("keyword:" ++ kw) m))).sets key := by
  induction kws with
  | nil => intro s key m hm; exact hm
  | cons kw rest ih =>
    intro s key m hm
    rw [List.map_cons, execOps_cons]
    exact ih _ key m (mem_sets_applyOp_sadd s key _ m m hm)

theorem mem_sets_execOps_sadds_self (kws : List String) :
    ∀ (s : Store) (k m : String), k ∈ kws →
      m ∈ (execOps s (kws.map (fun kw => DbOp.sadd ("keyword:" ++ kw) m))).sets
        ("keyword:" ++ k) := by
  induction kws with
  | nil => intro s k m hk; exact absurd hk (List.not_mem_nil k)
  | cons kw rest ih =>
    intro s k m hk
    rw [List.map_cons, execOps_cons]
    rcases List.mem_cons.mp hk with rfl | hk
    · exact mem_sets_execOps_sadds rest _ _ m (mem_sets_applyOp_sadd_self s _ m)
    · exact ih _ k m hk

/-! ## Helper lemmas: the read paths -/

theorem mem_insertDesc (n x : KnowledgeNode) (l : List KnowledgeNode) :
    x ∈ insertDesc n l ↔ x = n ∨ x ∈ l := by
  induction l with
  | nil => simp [insertDesc]
  | cons m ms ih =>
    simp only [insertDesc]
    by_cases hlt : m.createdAt < n.createdAt
    · rw [if_pos hlt]
      simp
    · rw [if_neg hlt]
      simp only [List.mem_cons, ih]
      constructor
      · rintro (rfl | h | h)
        · exact Or.inr (Or.inl rfl)
        · exact Or.inl h
        · exact Or.inr (Or.inr h)
      · rintro (h | rfl | h)
        · exact Or.inr (Or.inl h)
        · exact Or.inl rfl
        · exact Or.inr (Or.inr h)

theorem mem_sortByCreatedAtDesc (x : KnowledgeNode) (l : List KnowledgeNode) :
    x ∈ sortByCreatedAtDesc l ↔ x ∈ l := by
  induction l with
  | nil => simp [sortByCreatedAtDesc]
  | cons n ns ih =>
    simp only [sortByCreatedAtDesc, mem_insertDesc, ih, List.mem_cons]

theorem nodesFromBatch_ok_map (s : Store) (keys : List String) :
    nodesFromBatch (keys.map (fun k => Except.ok (s.hashes k))) =
      keys.filterMap (fun k => parseNode (s.hashes k)) := by
  rw [nodesFromBatch, List.filterMap_map]
  rfl

theorem mem_nodesFromBatch_store (s : Store) (ids : List String) (n : KnowledgeNode)
    (id : String) (hid : id ∈ ids)
    (hp : parseNode (s.hashes ("node:" ++ id)) = some n) :
    n ∈ nodesFromBatch ((ids.map (fun i => "node:" ++ i)).map
      (fun k => Except.ok (s.hashes k))) := by
  rw [nodesFromBatch_ok_map, List.filterMap_map]
  exact List.mem_filterMap.mpr ⟨id, hid, hp⟩

theorem isEmpty_false_of_mem {α : Type} (l : List α) (x : α) (hx : x ∈ l) :
    l.isEmpty = false := by
  cases l with
  | nil => exact absurd hx (List.not_mem_nil x)
  | cons y ys => rfl

theorem string_isEmpty_false_of_length (k : String) (h : 3 ≤ k.length) :
    k.isEmpty = false := by
  cases hk : k.isEmpty
  · rfl
  · exfalso
    cases k with
    | mk data =>
      cases data with
      | nil => simp [String.length] at h
      | cons c cs =>
        simp only [String.isEmpty, String.endPos, String.utf8ByteSize,
          String.utf8Len, beq_iff_eq] at hk
        have hb := congrArg String.Pos.byteIdx hk
        have hcp := Char.utf8Size_pos c
        simp at hb
        omega

/-! ## The claims -/

/-- Claim C2 (counterexample): `extractKeywords` can return entries of
length ≤ 2 and purely numeric entries, because the length and numeric
filters run on the raw tokens before punctuation is stripped: on
`"a., 1.23"` the result is `["a", "123"]` — a 1-character entry and a
purely numeric entry. -/
theorem c2_counterexample :
    extractKeywords "a., 1.23" = ["a", "123"] ∧
    "a" ∈ extractKeywords "a., 1.23" ∧ "a".length ≤ 2 ∧
    "123" ∈ extractKeywords "a., 1.23" ∧ isNumericTok "123".data = true := by
  decide

/-- Claim C2 (amended): for every input, `extractKeywords` returns no
duplicates, at most 10 entries, in first-occurrence order (a sublist of the
processed token stream), and every entry is the punctuation-stripped image
of a whitespace token whose pre-strip length exceeded 2 and which was not
purely numeric; entries of length ≤ 2 or purely numeric entries may still
occur when stripping shortens such a token. -/
theorem c2_extractKeywords_shape (c : String) :
    (extractKeywords c).Nodup ∧
    (extractKeywords c).length ≤ 10 ∧
    List.Sublist (extractKeywords c)
      ((((splitWs (asciiToLower c).data).filter
          (fun w => decide (2 < w.length) && !isNumericTok w)).map
          (fun w => String.mk (stripPunct w))).take 10) ∧
    ∀ k ∈ extractKeywords c, ∃ w ∈ splitWs (asciiToLower c).data,
      2 < w.length ∧ isNumericTok w = false ∧ k = String.mk (stripPunct w) := by
  refine ⟨nodup_dedupFirst _, ?_, dedupFirst_sublist _, extractKeywords_token c⟩
  calc (extractKeywords c).length
      ≤ _ := dedupFirst_length_le _
    _ ≤ 10 := List.length_take_le 10 _

/-- Claim C2 (witness for the amended theorem's hypothesis): the keyword
`"abc"` of `"abc def"` comes from the raw token `"abc"`. -/
theorem c2_witness :
    "abc" ∈ extractKeywords "abc def" ∧
    (∃ w ∈ splitWs (asciiToLower "abc def").data,
      2 < w.length ∧ isNumericTok w = false ∧ "abc" = String.mk (stripPunct w)) :=
  ⟨by decide, (c2_extractKeywords_shape "abc def").2.2.2 "abc" (by decide)⟩

/-- Claim C3 (counterexample): `extractKeywords` differs from the
section-4.1 reference algorithm.  Punctuation: on `"a.b"` the source removes
the interior dot (`["ab"]`) while the spec strips only leading/trailing
punctuation (`["a.b"]`).  Cap placement: with ten copies of `"aaa"`
followed by `"bbb"`, the source slices to 10 before deduplicating and loses
`"bbb"`, while the spec deduplicates first and keeps it. -/
theorem c3_counterexample :
    extractKeywords "a.b" = ["ab"] ∧
    specExtractKeywords "a.b" = ["a.b"] ∧
    extractKeywords "a.b" ≠ specExtractKeywords "a.b" ∧
    extractKeywords "aaa aaa aaa aaa aaa aaa aaa aaa aaa aaa bbb" = ["aaa"] ∧
    specExtractKeywords "aaa aaa aaa aaa aaa aaa aaa aaa aaa aaa bbb" =
      ["aaa", "bbb"] := by
  refine ⟨by decide, by decide, by decide, by decide, by decide⟩

/-- Claim C3 (amended): `extractKeywords` equals the section-4.1 pipeline
amended in three places — the length/numeric filters run on the raw tokens,
the punctuation characters `. , ! ?` are removed everywhere in a token
(not only at its ends), and the truncation to 10 is applied to the token
stream before deduplication, so the result is the set of distinct
strip-images of the first 10 qualifying raw tokens. -/
theorem c3_extractKeywords_eq_amendedTokenizer (text : String) :
    extractKeywords text = amendedTokenizer text := by
  unfold extractKeywords amendedTokenizer
  rw [List.map_take]

/-- Claim C4 (counterexample): the token list `searchNodes` derives is not
the section-4.1 rule without the cap: the search derivation neither strips
punctuation (`"ab."`) nor drops purely numeric tokens (`"123"`). -/
theorem c4_counterexample :
    searchTermsOf "ab." = ["ab."] ∧ specSearchTokens "ab." = ["ab"] ∧
    searchTermsOf "ab." ≠ specSearchTokens "ab." ∧
    searchTermsOf "123" = ["123"] ∧ specSearchTokens "123" = [] := by
  refine ⟨by decide, by decide, by decide, by decide, by decide⟩

/-- Claim C4 (amended): the search terms are the deduplicated whitespace
tokens of the lower-cased query of length > 2, with no numeric or
punctuation handling; and a query consisting of a single stored keyword of
length ≥ 3 tokenizes to exactly that keyword, the key under which indexing
stored it. -/
theorem c4_searchTerms_props (q : String) :
    (searchTermsOf q).Nodup ∧
    (∀ t ∈ searchTermsOf q,
      2 < t.length ∧ t ∈ (splitWs (asciiToLower q).data).map (fun w => String.mk w)) ∧
    ∀ ct k, k ∈ extractKeywords ct → 3 ≤ k.length → searchTermsOf k = [k] := by
  refine ⟨nodup_dedupFirst _, ?_, fun ct k hk hlen => searchTermsOf_keyword ct k hk hlen⟩
  intro t ht
  have ht2 := (mem_dedupFirst _ _).mp ht
  obtain ⟨w, hw, rfl⟩ := List.mem_map.mp ht2
  have hw2 := List.mem_filter.mp hw
  refine ⟨?_, List.mem_map.mpr ⟨w, hw2.1, rfl⟩⟩
  have := hw2.2
  simp only [decide_eq_true_eq] at this
  exact this

/-- Claim C4 (witness): the keyword `"abc"` of `"abc def"` has length ≥ 3
and the query `"abc"` tokenizes to exactly `["abc"]`. -/
theorem c4_witness :
    "abc" ∈ extractKeywords "abc def" ∧ 3 ≤ "abc".length ∧
    searchTermsOf "abc" = ["abc"] :=
  ⟨by decide, by decide,
    (c4_searchTerms_props "abc").2.2 "abc def" "abc" (by decide) (by decide)⟩

/-- Claim C6 (counterexample): for an id that is not a syntactically valid
UUID the record is equally unreadable, but `deleteNodeAction` reports the
validation failure `"Invalid Node ID."`, not the claimed not-found failure
(it still issues no storage command). -/
theorem c6_counterexample :
    parseNode (emptyStore.hashes ("node:" ++ "missing-node")) = none ∧
    (deleteNodeAction emptyStore "missing-node").1.message ≠ "Node not found." ∧
    (deleteNodeAction emptyStore "missing-node").1 =
      { success := false, message := "Invalid Node ID." } ∧
    (deleteNodeAction emptyStore "missing-node").2.2 = [] := by
  refine ⟨rfl, by decide, by decide, by decide⟩

/-- Claim C6 (amended): for every id whose record cannot be read, delete
mutates nothing; when the id passes UUID validation the failure is the
not-found failure with only the initial read issued, and when it fails
validation the failure is the validation failure with no command at all. -/
theorem c6_delete_unreadable_no_side_effects (s : Store) (nodeId : String)
    (hmiss : parseNode (s.hashes ("node:" ++ nodeId)) = none) :
    (isValidUuid nodeId = true →
      deleteNodeAction s nodeId =
        ({ success := false, message := "Node not found." }, s,
          [DbOp.hgetall ("node:" ++ nodeId)]) ∧
      ∀ op ∈ (deleteNodeAction s nodeId).2.2, op.isMutating = false) ∧
    (isValidUuid nodeId = false →
      deleteNodeAction s nodeId =
        ({ success := false, message := "Invalid Node ID." }, s, [])) := by
  constructor
  · intro hid
    have he : deleteNodeAction s nodeId =
        ({ success := false, message := "Node not found." }, s,
          [DbOp.hgetall ("node:" ++ nodeId)]) := by
      unfold deleteNodeAction
      rw [hid, hmiss]
      rfl
    refine ⟨he, ?_⟩
    rw [he]
    intro op hop
    rcases List.mem_singleton.mp hop with rfl
    rfl
  · intro hid
    unfold deleteNodeAction
    rw [hid]
    rfl

/-- Claim C6 (witness): deleting a well-formed but absent id in the empty
store returns the not-found failure, leaves the store untouched, and issues
only the read. -/
theorem c6_witness :
    isValidUuid sampleUuid = true ∧
    parseNode (emptyStore.hashes ("node:" ++ sampleUuid)) = none ∧
    (deleteNodeAction emptyStore sampleUuid =
      ({ success := false, message := "Node not found." }, emptyStore,
        [DbOp.hgetall ("node:" ++ sampleUuid)]) ∧
      ∀ op ∈ (deleteNodeAction emptyStore sampleUuid).2.2, op.isMutating = false) :=
  ⟨by decide, rfl,
    (c6_delete_unreadable_no_side_effects emptyStore sampleUuid rfl).1 (by decide)⟩

/-- Claim C7: the keyword diff of `editNodeAction` is the two set
differences, each without duplicates, and diffing a list against itself
yields two empty lists. -/
theorem c7_diffKeywords_correct (oldKw newKw : List String) :
    (diffKeywords oldKw newKw).1.Nodup ∧
    (diffKeywords oldKw newKw).2.Nodup ∧
    (∀ x, x ∈ (diffKeywords oldKw newKw).1 ↔ x ∈ newKw ∧ x ∉ oldKw) ∧
    (∀ x, x ∈ (diffKeywords oldKw newKw).2 ↔ x ∈ oldKw ∧ x ∉ newKw) ∧
    diffKeywords oldKw oldKw = ([], []) := by
  refine ⟨(nodup_dedupFirst _).filter _, (nodup_dedupFirst _).filter _, ?_, ?_, ?_⟩
  · intro x
    simp [diffKeywords, List.mem_filter, mem_dedupFirst]
  · intro x
    simp [diffKeywords, List.mem_filter, mem_dedupFirst]
  · have h1 : (dedupFirst oldKw).filter (fun kw => !decide (kw ∈ oldKw)) = [] := by
      apply List.filter_eq_nil_iff.mpr
      intro a ha
      simp [(mem_dedupFirst _ _).mp ha]
    unfold diffKeywords
    rw [h1]

/-- Claim C8: serializing any node to its flat hash (keywords JSON-encoded)
and deserializing through `parseNode` restores the node in all five
fields. -/
theorem c8_node_roundtrip (n : KnowledgeNode) :
    parseNode (storableFields n) = some n :=
  parseNode_storableFields n

/-- Claim C9: a failing registry read, keyword-set union, or batch record
read makes `getAllNodes` and `searchNodes` return `[]` rather than an
error value — indistinguishable from an empty store. -/
theorem c9_read_paths_fail_soft (b : Backend) (query : String) :
    (b.smembers "nodes" = Except.error () → getAllNodes b = []) ∧
    ((∀ keys, b.sunion keys = Except.error ()) → searchNodes b query = []) ∧
    ((∀ keys, b.hgetallBatch keys = Except.error ()) →
      getAllNodes b = [] ∧ searchNodes b query = []) := by
  refine ⟨?_, ?_, ?_⟩
  · intro h
    simp [getAllNodes, h]
  · intro h
    simp [searchNodes, h, ite_self]
  · intro h
    refine ⟨?_, ?_⟩
    · cases hs : b.smembers "nodes" with
      | error e => simp [getAllNodes, hs]
      | ok ids => simp [getAllNodes, hs, h, ite_self]
    · cases hu : b.sunion ((searchTermsOf query).map (fun t => "keyword:" ++ t)) with
      | error e => simp [searchNodes, hu, ite_self]
      | ok ids => simp [searchNodes, hu, h, ite_self]

/-- Claim C9 (witness): against a backend whose every round trip fails,
both read paths return `[]`. -/
theorem c9_witness :
    getAllNodes failingBackend = [] ∧ searchNodes failingBackend "hello" = [] :=
  (c9_read_paths_fail_soft failingBackend "hello").2.2 (fun _ => rfl)

/-- Claim C10: an id that is not a syntactically valid UUID makes both
update and delete fail validation with the unchanged store and an empty
command trace — not even the initial read is issued. -/
theorem c10_invalid_uuid_no_storage (s : Store) (nodeId content : String)
    (hid : isValidUuid nodeId = false) :
    editNodeAction s nodeId content =
      ({ success := false, message := "Invalid data." }, s, []) ∧
    deleteNodeAction s nodeId =
      ({ success := false, message := "Invalid Node ID." }, s, []) := by
  constructor
  · unfold editNodeAction
    rw [hid]
    rfl
  · unfold deleteNodeAction
    rw [hid]
    rfl

/-- Claim C10 (witness): `"not-a-uuid"` is rejected by both mutating
actions with no storage command. -/
theorem c10_witness :
    isValidUuid "not-a-uuid" = false ∧
    (editNodeAction emptyStore "not-a-uuid" "hello world" =
      ({ success := false, message := "Invalid data." }, emptyStore, []) ∧
    deleteNodeAction emptyStore "not-a-uuid" =
      ({ success := false, message := "Invalid Node ID." }, emptyStore, [])) :=
  ⟨by decide, c10_invalid_uuid_no_storage emptyStore "not-a-uuid" "hello world" (by decide)⟩

/-- Claim C5: a successful update rewrites only the `content` and
`keywords` fields of the stored node hash — `id`, `createdAt` and `type`
(and any other field) keep their previous values, `type` in particular is
not recomputed — and no other node hash is touched. -/
theorem c5_edit_frame (s : Store) (nodeId content : String)
    (hid : isValidUuid nodeId = true) (hc : 3 ≤ content.length)
    (old : KnowledgeNode)
    (hold : parseNode (s.hashes ("node:" ++ nodeId)) = some old) :
    (editNodeAction s nodeId content).1 =
      { success := true, message := "Node updated." } ∧
    lookupField ((editNodeAction s nodeId content).2.1.hashes ("node:" ++ nodeId))
      "content" = some content ∧
    lookupField ((editNodeAction s nodeId content).2.1.hashes ("node:" ++ nodeId))
      "keywords" = some (stringifyStrings (dedupFirst (extractKeywords content))) ∧
    (∀ f, f ≠ "content" → f ≠ "keywords" →
      lookupField ((editNodeAction s nodeId content).2.1.hashes ("node:" ++ nodeId)) f =
        lookupField (s.hashes ("node:" ++ nodeId)) f) ∧
    (∀ key, key ≠ "node:" ++ nodeId →
      (editNodeAction s nodeId content).2.1.hashes key = s.hashes key) := by
  have hcond : (!isValidUuid nodeId || decide (content.length < 3)) = false := by
    rw [hid]
    simp only [Bool.not_true, Bool.false_or, decide_eq_false_iff_not]
    omega
  have he : editNodeAction s nodeId content =
      ({ success := true, message := "Node updated." },
        execOps s
          (DbOp.hset ("node:" ++ nodeId)
            [("content", content),
             ("keywords", stringifyStrings (dedupFirst (extractKeywords content)))] ::
          ((diffKeywords old.keywords (extractKeywords content)).1.map
              (fun kw => DbOp.sadd ("keyword:" ++ kw) nodeId) ++
            (diffKeywords old.keywords (extractKeywords content)).2.map
              (fun kw => DbOp.srem ("keyword:" ++ kw) nodeId))),
        DbOp.hgetall ("node:" ++ nodeId) ::
          DbOp.hset ("node:" ++ nodeId)
            [("content", content),
             ("keywords", stringifyStrings (dedupFirst (extractKeywords content)))] ::
          ((diffKeywords old.keywords (extractKeywords content)).1.map
              (fun kw => DbOp.sadd ("keyword:" ++ kw) nodeId) ++
            (diffKeywords old.keywords (extractKeywords content)).2.map
              (fun kw => DbOp.srem ("keyword:" ++ kw) nodeId))) := by
    unfold editNodeAction
    rw [hcond, hold]
    rfl
  rw [he]
  have hsetops : ∀ op ∈
      ((diffKeywords old.keywords (extractKeywords content)).1.map
          (fun kw => DbOp.sadd ("keyword:" ++ kw) nodeId) ++
        (diffKeywords old.keywords (extractKeywords content)).2.map
          (fun kw => DbOp.srem ("keyword:" ++ kw) nodeId)), op.isSetOp := by
    intro op hop
    rcases List.mem_append.mp hop with h | h
    · obtain ⟨kw, _, rfl⟩ := List.mem_map.mp h
      trivial
    · obtain ⟨kw, _, rfl⟩ := List.mem_map.mp h
      trivial
  have hh : ∀ key,
      (execOps s
        (DbOp.hset ("node:" ++ nodeId)
          [("content", content),
           ("keywords", stringifyStrings (dedupFirst (extractKeywords content)))] ::
        ((diffKeywords old.keywords (extractKeywords content)).1.map
            (fun kw => DbOp.sadd ("keyword:" ++ kw) nodeId) ++
          (diffKeywords old.keywords (extractKeywords content)).2.map
            (fun kw => DbOp.srem ("keyword:" ++ kw) nodeId)))).hashes key =
      if key = "node:" ++ nodeId then
        setField (setField (s.hashes ("node:" ++ nodeId)) "content" content)
          "keywords" (stringifyStrings (dedupFirst (extractKeywords content)))
      else s.hashes key := by
    intro key
    rw [execOps_cons, hashes_execOps_setOps _ _ hsetops]
    simp only [applyOp]
    by_cases hk : key = "node:" ++ nodeId
    · rw [if_pos hk, if_pos hk]
      rfl
    · rw [if_neg hk, if_neg hk]
  refine ⟨rfl, ?_, ?_, ?_, ?_⟩
  · rw [hh, if_pos rfl, lookupField_setField, if_neg (by decide),
      lookupField_setField, if_pos rfl]
  · rw [hh, if_pos rfl, lookupField_setField, if_pos rfl]
  · intro f hf1 hf2
    rw [hh, if_pos rfl, lookupField_setField, if_neg hf2, lookupField_setField,
      if_neg hf1]
  · intro key hkey
    rw [hh, if_neg hkey]

/-- Claim C5 (witness): updating `sampleNode` with new content rewrites
`content` and `keywords` and leaves `id`, `type` and `createdAt` as they
were. -/
theorem c5_witness :
    isValidUuid sampleUuid = true ∧
    3 ≤ ("new words here").length ∧
    parseNode (sampleStore.hashes ("node:" ++ sampleUuid)) = some sampleNode ∧
    ((editNodeAction sampleStore sampleUuid "new words here").1 =
        { success := true, message := "Node updated." } ∧
      lookupField ((editNodeAction sampleStore sampleUuid
          "new words here").2.1.hashes ("node:" ++ sampleUuid)) "content" =
        some "new words here" ∧
      lookupField ((editNodeAction sampleStore sampleUuid
          "new words here").2.1.hashes ("node:" ++ sampleUuid)) "keywords" =
        some (stringifyStrings (dedupFirst (extractKeywords "new words here"))) ∧
      (∀ f, f ≠ "content" → f ≠ "keywords" →
        lookupField ((editNodeAction sampleStore sampleUuid
            "new words here").2.1.hashes ("node:" ++ sampleUuid)) f =
          lookupField (sampleStore.hashes ("node:" ++ sampleUuid)) f) ∧
      (∀ key, key ≠ "node:" ++ sampleUuid →
        (editNodeAction sampleStore sampleUuid "new words here").2.1.hashes key =
          sampleStore.hashes key)) :=
  ⟨by decide, by decide, by decide,
    c5_edit_frame sampleStore sampleUuid "new words here" (by decide) (by decide)
      sampleNode (by decide)⟩

/-! ## Helper lemmas: effect of the create pipeline, and search membership -/

theorem createOps_hashes (s : Store) (content nodeId now key : String) :
    (execOps s (createOps content nodeId now)).hashes key =
      if key = "node:" ++ nodeId then
        hsetFields (s.hashes ("node:" ++ nodeId))
          (storableFields (mkNode content nodeId now))
      else s.hashes key := by
  unfold createOps
  rw [execOps_cons, execOps_cons, hashes_execOps_setOps]
  · rfl
  · intro op hop
    obtain ⟨kw, _, rfl⟩ := List.mem_map.mp hop
    trivial

theorem createOps_keyword_mem (s : Store) (content nodeId now k : String)
    (hk : k ∈ extractKeywords content) :
    nodeId ∈ (execOps s (createOps content nodeId now)).sets ("keyword:" ++ k) := by
  unfold createOps
  rw [execOps_cons, execOps_cons]
  exact mem_sets_execOps_sadds_self (mkNode content nodeId now).keywords _ k nodeId hk

theorem search_finds (st : Store) (n : KnowledgeNode) (ct k : String)
    (hk : k ∈ extractKeywords ct) (hlen : 3 ≤ k.length)
    (hmem : n.id ∈ st.sets ("keyword:" ++ k))
    (hp : parseNode (st.hashes ("node:" ++ n.id)) = some n) :
    n ∈ searchNodes (storeBackend st) k := by
  have hchars := extractKeywords_chars ct k hk
  have htrim : jsTrim k = k := jsTrim_of_no_ws k (fun c hc => (hchars c hc).1)
  have hterms : searchTermsOf k = [k] := searchTermsOf_keyword ct k hk hlen
  have hne : (jsTrim k).isEmpty = false := by
    rw [htrim]
    exact string_isEmpty_false_of_length k hlen
  have hidmem : n.id ∈ dedupFirst (st.sets ("keyword:" ++ k)) :=
    (mem_dedupFirst _ _).mpr hmem
  have hids_ne : (dedupFirst (st.sets ("keyword:" ++ k))).isEmpty = false :=
    isEmpty_false_of_mem _ _ hidmem
  unfold searchNodes
  rw [hne]
  simp only [Bool.false_eq_true, if_false, hterms, List.isEmpty_cons, storeBackend,
    List.map_cons, List.map_nil, List.flatten_cons, List.flatten_nil,
    List.append_nil, hids_ne, mem_sortByCreatedAtDesc]
  exact mem_nodesFromBatch_store st _ n n.id hidmem hp

/-- Claim C1 (counterexample): `create("a.,")` succeeds (content has 3
characters) and indexes the node under its only keyword `"a"`, but
`search("a")` drops the 1-character term and returns `[]`, missing the
created node. -/
theorem c1_counterexample :
    "a" ∈ extractKeywords "a.," ∧
    (addNodeAction emptyStore "a.," sampleUuid "2026-01-01T00:00:00.000Z").1 =
      { status := "success", message := "Node added!" } ∧
    searchNodes
      (storeBackend
        (addNodeAction emptyStore "a.," sampleUuid "2026-01-01T00:00:00.000Z").2.1)
      "a" = [] := by
  refine ⟨by decide, by decide, ?_⟩
  rfl

/-- Claim C1 (amended): after a successful `create(c)`, for every keyword
`k` of `extractKeywords(c)` of length at least 3, `search(k)` over the
resulting store includes the created node.  (Keywords shorter than 3
characters — possible because punctuation is stripped after the length
filter — are indexed but unreachable, as the counterexample shows.) -/
theorem c1_create_then_search_finds_keyword (s : Store)
    (content nodeId now k : String) (hc : 3 ≤ content.length)
    (hk : k ∈ extractKeywords content) (hlen : 3 ≤ k.length) :
    (addNodeAction s content nodeId now).1 =
      { status := "success", message := "Node added!" } ∧
    mkNode content nodeId now ∈
      searchNodes (storeBackend (addNodeAction s content nodeId now).2.1) k := by
  have hclen : ¬content.length < 3 := by omega
  have he : addNodeAction s content nodeId now =
      ({ status := "success", message := "Node added!" },
        execOps s (createOps content nodeId now), createOps content nodeId now) := by
    unfold addNodeAction
    rw [if_neg hclen]
  rw [he]
  refine ⟨rfl, ?_⟩
  apply search_finds (execOps s (createOps content nodeId now))
    (mkNode content nodeId now) content k hk hlen
  · exact createOps_keyword_mem s content nodeId now k hk
  · have hids : "node:" ++ (mkNode content nodeId now).id = "node:" ++ nodeId := rfl
    rw [createOps_hashes, if_pos hids]
    exact parseNode_hsetFields_storable _ _

/-- Claim C1 (witness): creating `"fast databases"` in the empty store and
searching its keyword `"fast"` finds the created node. -/
theorem c1_witness :
    3 ≤ ("fast databases").length ∧
    "fast" ∈ extractKeywords "fast databases" ∧
    3 ≤ ("fast").length ∧
    ((addNodeAction emptyStore "fast databases" sampleUuid
        "2026-01-01T00:00:00.000Z").1 =
      { status := "success", message := "Node added!" } ∧
    mkNode "fast databases" sampleUuid "2026-01-01T00:00:00.000Z" ∈
      searchNodes
        (storeBackend (addNodeAction emptyStore "fast databases" sampleUuid
          "2026-01-01T00:00:00.000Z").2.1) "fast") :=
  ⟨by decide, by decide, by decide,
    c1_create_then_search_finds_keyword emptyStore "fast databases" sampleUuid
      "2026-01-01T00:00:00.000Z" "fast" (by decide) (by decide) (by decide)⟩

end PKG
